import Mathlib

/-!
Verification of the NanoClaw session-orchestration and backend-normalization
layer against its specification.

The definitions below are shallow embeddings of the TypeScript sources:

* `container/agent-runner/src/sdk-adapter/claude-adapter.ts` (which also holds
  the OpenCode adapter: `drainIpcInput`, `shouldClose`, `waitForIpcMessage`,
  `normalizeEvent`, `runMultiTurnQuery`),
* `src/config.ts` (`SDK_BACKEND` validation) and
  `container/agent-runner/src/sdk-adapter/index.ts` (`getSdkBackend`),
* the session host controller `src/container-runner.ts` is not part of the
  given sources (only its tests are), so it is modelled from the spec where
  indicated.

Filesystem state is modelled explicitly: the IPC input directory is a list of
(filename, content) pairs plus a flag for the `_close` sentinel file.
-/

namespace NanoClaw

/-! ## Mailbox IPC (drainIpcInput / shouldClose / waitForIpcMessage) -/

/-- Parsed content of a file in the IPC input directory: either JSON that
parsed to an object (with a `type` field and an optional `text` field), or
content whose parse throws.  `text` is `none` when the field is absent. -/
inductive EntryContent
  | valid (etype : String) (text : Option String)
  | malformed
deriving DecidableEq

/-- State of the IPC input directory: the regular files (name, content) and
whether the zero-byte `_close` sentinel file exists. -/
structure MailboxState where
  files : List (String × EntryContent)
  closeSentinel : Bool
deriving DecidableEq

/-- JavaScript truthiness of `data.text` for an optional string field:
`undefined` and the empty string are falsy. -/
def textTruthy : Option String → Bool
  | some t => t ≠ ""
  | none => false

/-- The `f.endsWith(".json")` filter used by `drainIpcInput`, stated on the
character list of the name. -/
def isJsonName (n : String) : Bool := List.isSuffixOf ".json".toList n.toList

/-- Lexicographic comparison used to model JavaScript `Array.prototype.sort`
on filenames (char-by-char code comparison). -/
def strLeb : List Char → List Char → Bool
  | [], _ => true
  | _ :: _, [] => false
  | a :: as, b :: bs =>
    if a.val < b.val then true
    else if b.val < a.val then false
    else strLeb as bs

/-- Insert into a sorted list (helper for `sortNames`). -/
def insertName (x : String) : List String → List String
  | [] => [x]
  | y :: ys => if strLeb x.toList y.toList then x :: y :: ys else y :: insertName x ys

/-- Insertion sort modelling `files.sort()` in `drainIpcInput`. -/
def sortNames : List String → List String
  | [] => []
  | x :: xs => insertName x (sortNames xs)

/-- The sorted list of `*.json` filenames that one `drainIpcInput` call
iterates over:
`fs.readdirSync(IPC_INPUT_DIR).filter(f => f.endsWith('.json')).sort()`. -/
def jsonNames (files : List (String × EntryContent)) : List String :=
  sortNames ((files.map Prod.fst).filter isJsonName)

/-- `fs.readFileSync` by name: first file with the given name, if any. -/
def lookupFile (n : String) : List (String × EntryContent) → Option EntryContent
  | [] => none
  | (m, c) :: fs => if m = n then some c else lookupFile n fs

/-- `fs.unlinkSync` by name. -/
def removeFile (n : String) (files : List (String × EntryContent)) :
    List (String × EntryContent) :=
  files.filter (fun f => f.1 != n)

/-- The per-file loop of `drainIpcInput`: for each filename read the file,
delete it, and keep `data.text` when `data.type === 'message' && data.text`;
on a parse failure delete the file and skip it; a file that disappeared
before the read is skipped (the catch-block unlink of a missing file is a
no-op). -/
def drainGo : List String → List (String × EntryContent) →
    List String × List (String × EntryContent)
  | [], files => ([], files)
  | n :: ns, files =>
    match lookupFile n files with
    | some (.valid t txt) =>
      let rest := drainGo ns (removeFile n files)
      if (t == "message") && textTruthy txt then ((txt.getD "") :: rest.1, rest.2) else rest
    | some .malformed => drainGo ns (removeFile n files)
    | none => drainGo ns files

/-- `drainIpcInput()`: reads and deletes all `*.json` files in filename-sort
order, returning the texts of the well-formed message entries. -/
def drainIpcInput (s : MailboxState) : List String × MailboxState :=
  let r := drainGo (jsonNames s.files) s.files
  (r.1, { s with files := r.2 })

/-- `shouldClose()`: consume the `_close` sentinel if present. -/
def shouldClose (s : MailboxState) : Bool × MailboxState :=
  if s.closeSentinel then (true, { s with closeSentinel := false }) else (false, s)

/-- Outcome of one iteration of the `poll` closure in `waitForIpcMessage`. -/
inductive PollOutcome
  | close (s : MailboxState)
  | message (text : String) (s : MailboxState)
  | sleep (s : MailboxState)
deriving DecidableEq

/-- One iteration of the `poll` loop in `waitForIpcMessage`: first check
`shouldClose()` and resolve `null` if the sentinel was present; otherwise
drain pending messages and resolve their newline join if any; otherwise
sleep `IPC_POLL_MS` and retry. -/
def pollStep (s : MailboxState) : PollOutcome :=
  let c := shouldClose s
  if c.1 then .close c.2
  else
    let d := drainIpcInput c.2
    if d.1.isEmpty then .sleep d.2 else .message (String.intercalate "\n" d.1) d.2

/-- Boolean membership of a name in a name list (helper for stating which
files a drain consumed). -/
def nameMem (x : String) : List String → Bool
  | [] => false
  | y :: ys => (x == y) || nameMem x ys

/-- What one drained file contributes, stated per filename against the
directory content before the drain: the text of a well-formed
`{type:"message", text}` entry, nothing for any other content. -/
def drainSpecOne (files : List (String × EntryContent)) (n : String) : Option String :=
  match lookupFile n files with
  | some (.valid t txt) =>
    if (t == "message") && textTruthy txt then some (txt.getD "") else none
  | _ => none

/-- The texts a drain of the given state should deliver: the well-formed
message texts of the `*.json` entries, in filename-sort order. -/
def validTexts (s : MailboxState) : List String :=
  (jsonNames s.files).filterMap (drainSpecOne s.files)

/-! ## Backend selection (src/config.ts and sdk-adapter/index.ts) -/

/-- ASCII lowercase of a character, modelling `toLowerCase` on the ASCII
range (the only range the backend names use). -/
def lowerChar (c : Char) : Char :=
  if 65 ≤ c.toNat ∧ c.toNat ≤ 90 then Char.ofNat (c.toNat + 32) else c

/-- `value.toLowerCase()` on ASCII strings. -/
def asciiLower (s : String) : String := ⟨s.toList.map lowerChar⟩

/-- `process.env.NANOCLAW_SDK_BACKEND || "claude"` in `src/config.ts`
(an unset or empty variable is falsy and defaults to "claude"). -/
def rawSdkBackend (env : Option String) : String :=
  match env with
  | some s => if s = "" then "claude" else s
  | none => "claude"

/-- The module-load-time validation in `src/config.ts`: any raw value other
than exactly "claude" or "opencode" throws an Invalid SDK_BACKEND error. -/
def validateSdkBackend (env : Option String) : Except String String :=
  if rawSdkBackend env ≠ "claude" ∧ rawSdkBackend env ≠ "opencode" then
    .error ("Invalid SDK_BACKEND: " ++ rawSdkBackend env ++ ". Must be claude or opencode")
  else .ok (rawSdkBackend env)

/-- `getSdkBackend()` in `container/agent-runner/src/sdk-adapter/index.ts`:
lowercase the variable, return "opencode" when it equals "opencode", and
return "claude" in every other case (including unset and invalid values). -/
def getSdkBackend (env : Option String) : String :=
  match env with
  | some s => if asciiLower s = "opencode" then "opencode" else "claude"
  | none => "claude"

/-! ## OpenCode events and `normalizeEvent` -/

/-- Token cache counts (`tokens.cache.read` / `tokens.cache.write`). -/
structure TokenCache where
  read : Nat
  write : Nat
deriving DecidableEq

/-- The `tokens` object of an OpenCode assistant message. -/
structure OCTokens where
  input : Nat
  output : Nat
  reasoning : Nat
  cache : Option TokenCache
deriving DecidableEq

/-- An upstream error object: `error.name` and `error.data.message`. -/
structure ErrorInfo where
  name : String
  message : Option String
deriving DecidableEq

/-- The `info` payload of a `message.updated` event as the adapter reads it:
`role`, truthiness of `time.completed`, `error`, `tokens`, `cost`, and the
message `id` (used by the session filter fallback and lastMessageId). -/
structure AssistantInfo where
  id : String
  role : String
  completed : Bool
  error : Option ErrorInfo
  tokens : OCTokens
  cost : Nat
deriving DecidableEq

/-- The `state` object of a tool part (`status` plus the fields the adapter
reads in each status branch). -/
structure OCToolState where
  status : String
  input : Option String
  output : Option String
  error : Option String
  metadata : Option String
deriving DecidableEq

/-- A message part carried by `message.part.updated`. -/
inductive OCPart
  | text (id : String) (text : String) (synthetic : Option Bool)
  | tool (callID : String) (tool : String) (state : OCToolState)
  | stepFinish
  | compaction
deriving DecidableEq

/-- The `status` payload of a `session.status` event. -/
structure SessionStatusInfo where
  stype : String
  attempt : Nat
  smessage : String
deriving DecidableEq

/-- A `permission.updated` payload (its `properties` object is the
permission itself, including its session id). -/
structure PermissionInfo where
  id : String
  sessionID : Option String
  ptype : String
  title : String
  pattern : String
  metadata : Option String
deriving DecidableEq

/-- OpenCode events as the adapter reads them.  Each constructor carries
exactly the `properties` fields the adapter accesses; `ignored` stands for
the event types the `normalizeEvent` switch maps to no messages
(`message.removed`, `file.edited`, `todo.updated`, ...). -/
inductive OCEvent
  | sessionCreated (infoId : String) (title : Option String)
  | messageUpdated (sessionID : Option String) (info : AssistantInfo)
  | messagePartUpdated (sessionID : Option String) (delta : Option String) (part : OCPart)
  | sessionStatus (sessionID : String) (status : SessionStatusInfo)
  | sessionIdle (sessionID : String)
  | sessionCompacted (sessionID : String)
  | sessionError (sessionID : Option String) (error : Option ErrorInfo)
  | permissionUpdated (perm : PermissionInfo)
  | ignored (sessionID : Option String)
deriving DecidableEq

/-- Normalized token usage (`TokenUsage` in `types.ts`). -/
structure TokenUsage where
  input : Nat
  output : Nat
  reasoning : Nat
  cache : Option TokenCache
deriving DecidableEq

/-- Normalized `AgentMessage` union produced by the adapters. -/
inductive AgentMessage
  | text (content : String) (uuid : Option String) (synthetic : Option Bool)
  | toolUse (id : String) (name : String) (input : Option String) (state : String)
  | toolResult (toolUseId : String) (content : Option String) (isError : Bool)
      (metadata : Option String)
  | system (subtype : String) (sessionId : Option String) (message : Option String)
      (status : Option String)
  | result (subtype : String) (resultText : Option String) (tokens : Option TokenUsage)
      (cost : Option Nat)
  | permission (id : String) (ptype : String) (title : String) (pattern : String)
      (metadata : Option String)
deriving DecidableEq

/-- `info.title || info.id` (an absent or empty title is falsy). -/
def titleOrId (title : Option String) (id : String) : String :=
  match title with
  | some t => if t = "" then id else t
  | none => id

/-- `normalizeEvent(event, sessionId)` of the OpenCode adapter: map one
upstream event to zero or more normalized messages. -/
def normalizeEvent (event : OCEvent) (sessionId : String) : List AgentMessage :=
  match event with
  | .sessionCreated infoId title =>
    [.system "init" (some infoId) (some ("Session created: " ++ titleOrId title infoId)) none]
  | .messageUpdated _ info =>
    if info.role = "assistant" ∧ info.completed = true then
      let tokens : TokenUsage :=
        { input := info.tokens.input
          output := info.tokens.output
          reasoning := info.tokens.reasoning
          cache := info.tokens.cache.map (fun c => { read := c.read, write := c.write }) }
      match info.error with
      | some e =>
        [.result (if e.name = "MessageAbortedError" then "abort" else "error") none
          (some tokens) (some info.cost)]
      | none => [.result "success" none (some tokens) (some info.cost)]
    else []
  | .messagePartUpdated _ delta part =>
    match part with
    | .text pid ptext synthetic =>
      [.text (match delta with
              | some d => if d = "" then ptext else d
              | none => ptext)
        (some pid) synthetic]
    | .tool callID toolName st =>
      if st.status = "pending" ∨ st.status = "running" then
        [.toolUse callID toolName st.input st.status]
      else if st.status = "completed" then
        [.toolResult callID st.output false st.metadata]
      else if st.status = "error" then
        [.toolResult callID st.error true st.metadata]
      else []
    | .stepFinish => []
    | .compaction => [.system "compacted" (some sessionId) none none]
  | .sessionStatus sid st =>
    [.system "status" (some sid)
      (if st.stype = "retry" then
        some ("Retrying (attempt " ++ toString st.attempt ++ "): " ++ st.smessage)
       else none)
      (some st.stype)]
  | .sessionIdle _ => []
  | .sessionCompacted sid => [.system "compacted" (some sid) none none]
  | .sessionError sid err =>
    [.system "error" sid
      (some (match err with
             | some e =>
               e.name ++ ": " ++
                 (match e.message with
                  | some m => if m = "" then "Unknown error" else m
                  | none => "Unknown error")
             | none => "Unknown error"))
      none]
  | .permissionUpdated p => [.permission p.id p.ptype p.title p.pattern p.metadata]
  | .ignored _ => []

/-! ## The multi-turn event loop of `runMultiTurnQuery` -/

/-- `props.sessionID ?? info?.id`: the session id the per-event filter
extracts from an event. -/
def eventSessionId : OCEvent → Option String
  | .sessionCreated infoId _ => some infoId
  | .messageUpdated sid info =>
    (match sid with
     | some s => some s
     | none => some info.id)
  | .messagePartUpdated sid _ _ => sid
  | .sessionStatus sid _ => some sid
  | .sessionIdle sid => some sid
  | .sessionCompacted sid => some sid
  | .sessionError sid _ => sid
  | .permissionUpdated p => p.sessionID
  | .ignored sid => sid

/-- `if (eventSessionId && eventSessionId !== session.id) continue`:
an event is skipped when it carries a truthy session id different from the
current session. -/
def eventFilteredOut (e : OCEvent) (sid : String) : Bool :=
  match eventSessionId e with
  | some s => (s != "") && (s != sid)
  | none => false

/-- The `session.idle` break test of the loop:
`event.type === "session.idle" && event.properties.sessionID === session.id`. -/
def isIdleFor (e : OCEvent) (sid : String) : Bool :=
  match e with
  | .sessionIdle s => s == sid
  | _ => false

/-- The per-turn event loop of `runMultiTurnQuery` (without the trailing
unconditional result): filter each event, yield its normalized messages, and
break at a `session.idle` event for this session. -/
def processTurnEvents (sid : String) : List OCEvent → List AgentMessage
  | [] => []
  | e :: es =>
    if eventFilteredOut e sid then processTurnEvents sid es
    else if isIdleFor e sid then normalizeEvent e sid
    else normalizeEvent e sid ++ processTurnEvents sid es

/-- One turn of `runMultiTurnQuery`: the event loop followed by the
unconditional `yield { type: "result", subtype: "success", result: undefined }`
that the code performs after the loop. -/
def runTurn (sid : String) (events : List OCEvent) : List AgentMessage :=
  processTurnEvents sid events ++ [.result "success" none none none]

/-- The message sequence yielded by `runMultiTurnQuery` for a session whose
successive turns observe the given event streams: the explicit
`system`/`init` message is yielded on the first turn only, then each turn
contributes its event-loop messages. -/
def runMultiTurn (sid : String) (turns : List (List OCEvent)) : List AgentMessage :=
  match turns with
  | [] => []
  | t :: ts =>
    ([.system "init" (some sid) none none] ++ runTurn sid t) ++
      (ts.map (runTurn sid)).flatten

/-- Is the normalized message a `result` message? -/
def isResultMsg : AgentMessage → Bool
  | .result _ _ _ _ => true
  | _ => false

/-- Is the normalized message a `system` message with subtype `init`? -/
def isInitMsg : AgentMessage → Bool
  | .system st _ _ _ => st == "init"
  | _ => false

/-- Number of `result` messages in a sequence. -/
def countResults (l : List AgentMessage) : Nat := l.countP isResultMsg

/-- Number of `system`/`init` messages in a sequence. -/
def countInits (l : List AgentMessage) : Nat := l.countP isInitMsg

/-- Is the event a `session.created` event? -/
def isSessionCreated : OCEvent → Bool
  | .sessionCreated _ _ => true
  | _ => false

/-- The text contents carried by the `text` messages of a sequence. -/
def textContents (l : List AgentMessage) : List String :=
  l.filterMap (fun m =>
    match m with
    | .text c _ _ => some c
    | _ => none)

/-- The text contents the adapter emits for a list of part-update events of
one part id (the per-event mapping of `normalizeEvent`). -/
def emittedTexts (sid : String) (events : List OCEvent) : List String :=
  textContents ((events.map (fun e => normalizeEvent e sid)).flatten)

/-- A snapshot-style `message.part.updated` event: no delta, full current
text of the part. -/
def mkSnapshot (sid pid t : String) : OCEvent :=
  .messagePartUpdated (some sid) none (.text pid t none)

/-- Length of the longest common prefix of two character lists. -/
def lcpLen : List Char → List Char → Nat
  | a :: as, b :: bs => if a = b then lcpLen as bs + 1 else 0
  | _, _ => 0

/-- From the spec (for comparison with the code): for a snapshot-style update
the adapter should emit only the unseen suffix, the longest-common-prefix
diff against the last-seen value for that part id. -/
def specSnapshotDiff (lastSeen t : String) : String :=
  ⟨t.toList.drop (lcpLen lastSeen.toList t.toList)⟩

/-- From the spec (for comparison with the code): the emissions for a
sequence of snapshots of one part id under longest-common-prefix dedup,
starting from an empty last-seen value. -/
def specDedupEmissions (snapshots : List String) : List String :=
  (snapshots.foldl
    (fun (acc : List String × String) t => (acc.1 ++ [specSnapshotDiff acc.2 t], t))
    ([], "")).1

/-! ## Session host controller (spec-modelled) -/

/-- The `ContainerOutput` wire record:
`{status: success|error|timeout, result: string|null, newSessionId?: string}`. -/
structure ContainerOutput where
  status : String
  result : Option String
  newSessionId : Option String
deriving DecidableEq

/-- Observable events of one `runContainerAgent` run, as seen by the
controller: a marker-framed output record is decoded, or a timeout fires. -/
inductive HostEvent
  | outputDecoded (o : ContainerOutput)
  | timeoutFired
deriving DecidableEq

/-- Modelled from the spec: `src/container-runner.ts` (`runContainerAgent`)
is not among the given sources, only its tests are.  Controller state per
spec section 4.4: every decoded record updates the latest known session id
and latest known result and is relayed to the streaming callback; a firing
timeout marks the run timed out. -/
structure HostState where
  lastResult : Option String
  lastSessionId : Option String
  anyOutput : Bool
  timedOut : Bool
  callbackCount : Nat
deriving DecidableEq

/-- Modelled from the spec: one controller step.  `hasCallback` tells whether
the caller registered the streaming result callback (legacy callers do not). -/
def hostStep (hasCallback : Bool) (st : HostState) : HostEvent → HostState
  | .outputDecoded o =>
    { lastResult :=
        (match o.result with
         | some r => some r
         | none => st.lastResult)
      lastSessionId :=
        (match o.newSessionId with
         | some s => some s
         | none => st.lastSessionId)
      anyOutput := true
      timedOut := st.timedOut
      callbackCount := st.callbackCount + (if hasCallback then 1 else 0) }
  | .timeoutFired => { st with timedOut := true }

/-- Modelled from the spec: the controller state after observing a run. -/
def runHost (hasCallback : Bool) (events : List HostEvent) : HostState :=
  events.foldl (hostStep hasCallback)
    { lastResult := none, lastSessionId := none, anyOutput := false,
      timedOut := false, callbackCount := 0 }

/-- The value `runContainerAgent` resolves with. -/
structure AgentRunOutcome where
  status : String
  result : Option String
  newSessionId : Option String
  error : Option String
deriving DecidableEq

/-- The timeout explanation the error status carries. -/
def timeoutExplanation : String := "Container agent timed out waiting for output"

/-- Modelled from the spec, section 4.4: on process exit, if at least one
valid output record was decoded, resolve as success with the last known
session id (and, for legacy callers without a streaming callback, the last
known result); otherwise resolve — not reject — as an error with a timeout
or crash explanation. -/
def resolveOnExit (hasCallback : Bool) (st : HostState) : AgentRunOutcome :=
  if st.anyOutput then
    { status := "success"
      result := if hasCallback then none else st.lastResult
      newSessionId := st.lastSessionId
      error := none }
  else if st.timedOut then
    { status := "error", result := none, newSessionId := none,
      error := some timeoutExplanation }
  else
    { status := "error", result := none, newSessionId := none,
      error := some "Container exited without producing output" }

/-- Is the host event a decoded output record? -/
def isOutputEvent : HostEvent → Bool
  | .outputDecoded _ => true
  | _ => false

/-- Trace-level view: number of decoded output records in a run. -/
def numOutputs (events : List HostEvent) : Nat :=
  events.countP isOutputEvent

/-- Trace-level view: did a timeout fire during the run? -/
def hasTimeout (events : List HostEvent) : Bool :=
  events.any (fun e =>
    match e with
    | .timeoutFired => true
    | _ => false)

/-- Trace-level view: the last known session id after the run — scanning
the records in order, a decoded record carrying a `newSessionId` overwrites
the last known one, any other event leaves it. -/
def lastSessionIdIn (events : List HostEvent) : Option String :=
  events.foldl
    (fun acc e =>
      match e with
      | .outputDecoded o =>
        (match o.newSessionId with
         | some s => some s
         | none => acc)
      | _ => acc)
    none

/-- Trace-level view: the last known result text after the run — scanning
the records in order, a decoded record carrying a non-null result overwrites
the last known one, any other event leaves it. -/
def lastResultIn (events : List HostEvent) : Option String :=
  events.foldl
    (fun acc e =>
      match e with
      | .outputDecoded o =>
        (match o.result with
         | some r => some r
         | none => acc)
      | _ => acc)
    none

/-! ## Timeout machine (spec-modelled) -/

/-- A controller-side event with its (monotonic clock) timestamp: an output
record decoded at time `t`, or a periodic timer tick at time `t`. -/
inductive TimedEvent
  | output (t : Nat)
  | tick (t : Nat)
deriving DecidableEq

/-- Modelled from the spec, sections 4.4/8/9 (`src/container-runner.ts` is
not among the given sources): the liveness timeout is a single deadline
value, recomputed on every accepted output record; a periodic tick forcibly
terminates the subprocess iff `now > deadline`. -/
structure CtrlState where
  deadline : Nat
  killed : Bool
deriving DecidableEq

/-- Modelled from the spec: one timer step.  An output record resets the
deadline to `now + window`; a tick kills the process when the current
deadline is crossed. -/
def ctrlStep (window : Nat) (st : CtrlState) : TimedEvent → CtrlState
  | .output t => if st.killed then st else { st with deadline := t + window }
  | .tick t =>
    if st.killed then st
    else if st.deadline < t then { st with killed := true } else st

/-- Modelled from the spec: run the timer machine from process start, with
the initial deadline `start + window`. -/
def ctrlRun (window start : Nat) (events : List TimedEvent) : CtrlState :=
  events.foldl (ctrlStep window) { deadline := start + window, killed := false }

/-! ## Theorems -/

/-- C1: the claim states that every completed turn of `runMultiTurnQuery`
yields exactly one `result` message, even when both an idle event and an
error event arrive for the turn.  The code violates this: a completed
assistant message carrying an error is normalized to an error `result`, and
after `session.idle` ends the loop the code unconditionally yields a second,
`success` result (its own comment says "if no result was emitted", but there
is no such guard).  At this turn the adapter yields two `result` messages. -/
theorem runMultiTurnQuery_two_results_per_turn :
    countResults (runTurn "s1"
      [.messageUpdated (some "s1")
        { id := "m1", role := "assistant", completed := true,
          error := some { name := "ProviderAuthError", message := some "auth failed" },
          tokens := { input := 1, output := 2, reasoning := 0, cache := none },
          cost := 0 },
       .sessionIdle "s1"]) = 2 := by decide

/-- C2 counterexample: the claim states that for snapshot-style text updates
of one part id the adapter emits only the unseen suffix (longest-common-prefix
diff), never duplicating previously emitted text.  The code has no dedup: for
a snapshot (no delta) it emits the full current text.  For the snapshots
"ab" then "abc" it emits "ab" then "abc" (total "ababc"), while the
spec-mandated diff emissions are "ab" then "c" (total "abc"): the bytes of
"ab" are emitted twice. -/
theorem snapshot_emissions_duplicate_bytes :
    String.join (emittedTexts "s1" [mkSnapshot "s1" "p1" "ab", mkSnapshot "s1" "p1" "abc"])
        = "ababc" ∧
      String.join (specDedupEmissions ["ab", "abc"]) = "abc" ∧
      ("ababc" : String) ≠ "abc" := by
  refine ⟨rfl, rfl, by decide⟩

/-- C2 amended: for every sequence of snapshot-style updates (no delta) of
one part id, the adapter emits the full current snapshot text of every
update, re-emitting previously seen content; no per-part dedup is performed. -/
theorem snapshot_updates_emit_full_text (sid pid : String) :
    ∀ texts : List String,
      emittedTexts sid ((texts.map (mkSnapshot sid pid))) = texts := by
  intro texts
  induction texts with
  | nil => rfl
  | cons t ts ih =>
    simp only [List.map_cons, emittedTexts, List.flatten, mkSnapshot, normalizeEvent,
      textContents, List.filterMap_cons, List.filterMap_append] at ih ⊢
    simpa using ih

/-- C3 counterexample: the claim states that when a poll observes both a
pending mailbox message and the close sentinel, the pending messages are
processed first and the close is deferred.  In the code `poll` checks
`shouldClose()` before draining: with both present, the poll consumes the
sentinel and resolves close immediately, leaving the pending message file
undrained and undelivered. -/
theorem poll_close_wins_over_pending_message :
    pollStep { files := [("a.json", .valid "message" (some "hi"))], closeSentinel := true }
      = .close { files := [("a.json", .valid "message" (some "hi"))], closeSentinel := false } := by
  decide

/-- C3 amended: close takes precedence.  Whenever the close sentinel is
present at the start of a poll, the poll resolves close (consuming only the
sentinel) and does not drain or deliver any pending mailbox message. -/
theorem poll_close_precedence (s : MailboxState) (h : s.closeSentinel = true) :
    pollStep s = .close { s with closeSentinel := false } := by
  simp [pollStep, shouldClose, h]

/-- C3 amended, witness. -/
theorem poll_close_precedence_witness :
    (MailboxState.mk [("a.json", .valid "message" (some "hi"))] true).closeSentinel = true ∧
      pollStep (MailboxState.mk [("a.json", .valid "message" (some "hi"))] true)
        = .close (MailboxState.mk [("a.json", .valid "message" (some "hi"))] false) :=
  ⟨rfl, poll_close_precedence _ rfl⟩

/-- C4 counterexample: the claim states the backend-selection variable is
validated to exactly claude/opencode and that every other value is a fatal
configuration error, never a silent fallback.  The container-side selector
`getSdkBackend` maps the invalid value "gpt-backend" silently to "claude"
(while the host-side `src/config.ts` validation rejects the same value). -/
theorem getSdkBackend_silent_fallback :
    getSdkBackend (some "gpt-backend") = "claude" ∧
      (validateSdkBackend (some "gpt-backend")).isOk = false ∧
      ("gpt-backend" : String) ≠ "claude" ∧ ("gpt-backend" : String) ≠ "opencode" := by
  refine ⟨by decide, by decide, by decide, by decide⟩

/-- C4 amended: the host-side `src/config.ts` validation accepts exactly the
raw values "claude" and "opencode" (unset/empty defaulting to "claude") and
fails on every other value, while the container-side `getSdkBackend` never
fails: it returns "opencode" exactly when the lowercased variable equals
"opencode" and silently falls back to "claude" for every other value. -/
theorem sdkBackend_selection (env : Option String) :
    ((validateSdkBackend env).isOk = true ↔
        (rawSdkBackend env = "claude" ∨ rawSdkBackend env = "opencode")) ∧
      (getSdkBackend env = "claude" ∨ getSdkBackend env = "opencode") ∧
      (getSdkBackend env = "opencode" ↔ env.map asciiLower = some "opencode") := by
  refine ⟨?_, ?_, ?_⟩
  · unfold validateSdkBackend
    split
    · rename_i h
      simp [Except.isOk, Except.toBool]
      tauto
    · rename_i h
      simp [Except.isOk, Except.toBool]
      tauto
  · cases env with
    | none => simp [getSdkBackend]
    | some s =>
      by_cases h : asciiLower s = "opencode"
      · right; simp [getSdkBackend, h]
      · left; simp [getSdkBackend, h]
  · cases env with
    | none => decide
    | some s =>
      by_cases h : asciiLower s = "opencode"
      · simp [getSdkBackend, h]
      · simp only [getSdkBackend, if_neg h, Option.map_some']
        constructor
        · intro hc
          exact absurd hc (by decide)
        · intro hc
          exact absurd (Option.some.inj hc) h

/-- C7: with `a.json = {type:"message",text:"first"}` and
`b.json = {type:"message",text:"second"}` in the mailbox and no sentinel, the
next poll resolves the newline join "first\nsecond" as the next prompt and
deletes both entry files. -/
theorem mailbox_drain_scenario :
    pollStep { files := [("a.json", .valid "message" (some "first")),
                         ("b.json", .valid "message" (some "second"))],
               closeSentinel := false }
      = .message "first\nsecond" { files := [], closeSentinel := false } := by
  decide

/-- C9 counterexample: the claim states that no normalized backend event
(such as `session.created`) produces a second init message for a session.
`normalizeEvent` maps `session.created` to a `system`/`init` message, and the
per-event filter passes it when it carries the session id, so a first turn
that observes a `session.created` event for the session yields two init
messages: the explicit one plus the normalized one. -/
theorem sessionCreated_yields_second_init :
    countInits (runMultiTurn "s1" [[.sessionCreated "s1" none, .sessionIdle "s1"]]) = 2 := by
  decide

/-! ### Mailbox lemmas -/

theorem mem_insertName {a x : String} {l : List String} :
    a ∈ insertName x l ↔ a = x ∨ a ∈ l := by
  induction l with
  | nil => simp [insertName]
  | cons y ys ih =>
    simp only [insertName]
    split
    · simp [List.mem_cons]
    · simp only [List.mem_cons, ih]
      tauto

theorem mem_sortNames {a : String} {l : List String} : a ∈ sortNames l ↔ a ∈ l := by
  induction l with
  | nil => simp [sortNames]
  | cons x xs ih => simp [sortNames, mem_insertName, ih]

theorem insertName_perm (x : String) (l : List String) :
    List.Perm (insertName x l) (x :: l) := by
  induction l with
  | nil => rfl
  | cons y ys ih =>
    simp only [insertName]
    split
    · rfl
    · exact (ih.cons y).trans (List.Perm.swap x y ys)

theorem sortNames_perm (l : List String) : List.Perm (sortNames l) l := by
  induction l with
  | nil => rfl
  | cons x xs ih => exact (insertName_perm x (sortNames xs)).trans (ih.cons x)

theorem nameMem_iff {x : String} {l : List String} : nameMem x l = true ↔ x ∈ l := by
  induction l with
  | nil => simp [nameMem]
  | cons y ys ih => simp [nameMem, ih, List.mem_cons]

theorem lookupFile_none {n : String} {files : List (String × EntryContent)}
    (h : lookupFile n files = none) : ∀ f ∈ files, f.1 ≠ n := by
  induction files with
  | nil => intro f hf; exact absurd hf (by simp)
  | cons g fs ih =>
    obtain ⟨m, c⟩ := g
    intro f hf
    by_cases hm : m = n
    · simp [lookupFile, hm] at h
    · rw [lookupFile, if_neg hm] at h
      rcases List.mem_cons.mp hf with hf | hf
      · subst hf; exact hm
      · exact ih h f hf

theorem lookupFile_removeFile {m n : String} (hmn : m ≠ n)
    (files : List (String × EntryContent)) :
    lookupFile m (removeFile n files) = lookupFile m files := by
  induction files with
  | nil => rfl
  | cons g fs ih =>
    obtain ⟨k, c⟩ := g
    by_cases hk : k = n
    · subst hk
      have hkm : k ≠ m := fun e => hmn (e.symm ▸ rfl)
      simp only [removeFile, List.filter_cons, bne_self_eq_false, lookupFile,
        if_neg hkm, Bool.false_eq_true, if_false]
      exact ih
    · simp only [removeFile, List.filter_cons, lookupFile]
      rw [if_pos (by simpa using hk)]
      rw [lookupFile]
      by_cases hkm : k = m
      · rw [if_pos hkm, if_pos hkm]
      · rw [if_neg hkm, if_neg hkm]
        exact ih

theorem drainGo_files (ns : List String) :
    ∀ files, (drainGo ns files).2 = files.filter (fun f => !nameMem f.1 ns) := by
  induction ns with
  | nil =>
    intro files
    simp [drainGo, nameMem]
  | cons n ns ih =>
    intro files
    have hstep : ∀ fs : List (String × EntryContent),
        (∀ f ∈ fs, f.1 ≠ n) →
          fs.filter (fun f => !nameMem f.1 ns)
            = fs.filter (fun f => !nameMem f.1 (n :: ns)) := by
      intro fs hfs
      apply List.filter_congr
      intro f hf
      have : (f.1 == n) = false := by simpa using hfs f hf
      simp [nameMem, this]
    have hremove : ∀ fs : List (String × EntryContent),
        (removeFile n fs).filter (fun f => !nameMem f.1 ns)
          = fs.filter (fun f => !nameMem f.1 (n :: ns)) := by
      intro fs
      rw [removeFile, List.filter_filter]
      apply List.filter_congr
      intro f _
      simp only [nameMem]
      cases h1 : (f.1 == n) <;> cases h2 : nameMem f.1 ns <;> simp [bne, h1, h2]
    cases hl : lookupFile n files with
    | none =>
      simp only [drainGo, hl]
      rw [ih files]
      exact hstep files (lookupFile_none hl)
    | some c =>
      cases c with
      | valid t txt =>
        simp only [drainGo, hl]
        by_cases hc : ((t == "message") && textTruthy txt) = true
        · rw [if_pos hc]
          show (drainGo ns (removeFile n files)).2 = _
          rw [ih _]
          exact hremove files
        · rw [if_neg hc, ih _]
          exact hremove files
      | malformed =>
        simp only [drainGo, hl]
        rw [ih _]
        exact hremove files

/-- Every `*.json` file is deleted by a drain: no file of the post-drain
state has a `.json` name. -/
theorem drain_removes_json (s : MailboxState) :
    ∀ f ∈ (drainIpcInput s).2.files, isJsonName f.1 = false := by
  intro f hf
  have h := drainGo_files (jsonNames s.files) s.files
  have hf2 : f ∈ s.files.filter (fun f => !nameMem f.1 (jsonNames s.files)) := by
    rw [← h]
    exact hf
  obtain ⟨hmem, hbool⟩ := List.mem_filter.mp hf2
  by_contra hj
  have hj2 : isJsonName f.1 = true := by
    cases hji : isJsonName f.1
    · exact absurd hji hj
    · rfl
  have h1 : f.1 ∈ (s.files.map Prod.fst).filter isJsonName :=
    List.mem_filter.mpr ⟨List.mem_map_of_mem _ hmem, hj2⟩
  have h2 : f.1 ∈ jsonNames s.files := mem_sortNames.mpr h1
  rw [nameMem_iff.mpr h2] at hbool
  exact absurd hbool (by decide)

/-- A drain of a state with no `*.json` file returns nothing and leaves the
state unchanged. -/
theorem drain_of_no_json {s : MailboxState} (h : jsonNames s.files = []) :
    drainIpcInput s = ([], s) := by
  unfold drainIpcInput
  rw [h]
  rfl

/-- C8: draining is idempotent.  A second `drainIpcInput` call, with no file
created in between, returns an empty message list and leaves the state
unchanged; since every entry file is deleted upon first consumption, no
entry is ever delivered twice. -/
theorem drain_idempotent (s : MailboxState) :
    drainIpcInput (drainIpcInput s).2 = ([], (drainIpcInput s).2) := by
  apply drain_of_no_json
  have hfil : ((drainIpcInput s).2.files.map Prod.fst).filter isJsonName = [] := by
    rw [List.filter_eq_nil_iff]
    intro a ha
    obtain ⟨f, hf, rfl⟩ := List.mem_map.mp ha
    simp [drain_removes_json s f hf]
  unfold jsonNames
  rw [hfil]
  rfl

theorem drainGo_msgs (ns : List String) :
    ∀ files, ns.Nodup → (drainGo ns files).1 = ns.filterMap (drainSpecOne files) := by
  induction ns with
  | nil => intro files _; rfl
  | cons n ns ih =>
    intro files hnd
    obtain ⟨hn, hnd2⟩ := List.nodup_cons.mp hnd
    have hcong : ∀ m ∈ ns, drainSpecOne (removeFile n files) m = drainSpecOne files m := by
      intro m hm
      have hmn : m ≠ n := fun e => hn (e ▸ hm)
      unfold drainSpecOne
      rw [lookupFile_removeFile hmn]
    cases hl : lookupFile n files with
    | none =>
      simp only [drainGo, hl, List.filterMap_cons, drainSpecOne]
      exact ih files hnd2
    | some c =>
      cases c with
      | valid t txt =>
        simp only [drainGo, hl, List.filterMap_cons, drainSpecOne]
        by_cases hc : ((t == "message") && textTruthy txt) = true
        · rw [if_pos hc, if_pos hc]
          show (txt.getD "") :: (drainGo ns (removeFile n files)).1 = _
          rw [ih _ hnd2, List.filterMap_congr hcong]
        · rw [if_neg hc, if_neg hc]
          rw [ih _ hnd2, List.filterMap_congr hcong]
      | malformed =>
        simp only [drainGo, hl, List.filterMap_cons, drainSpecOne]
        rw [ih _ hnd2, List.filterMap_congr hcong]

theorem jsonNames_nodup {files : List (String × EntryContent)}
    (h : (files.map Prod.fst).Nodup) : (jsonNames files).Nodup := by
  unfold jsonNames
  exact ((sortNames_perm _).nodup_iff).mpr (h.filter _)

/-- C10: a drain deletes every `*.json` file it visits, and the returned
messages are exactly the texts of the entries that parsed to an object with
type "message" and a truthy (non-empty) text, in filename-sort order; a
successfully parsed entry with a different type or an empty text field is
deleted without contributing a message. -/
theorem drain_characterization (s : MailboxState)
    (h : (s.files.map Prod.fst).Nodup) :
    (drainIpcInput s).1 = validTexts s ∧
      ∀ f ∈ (drainIpcInput s).2.files, isJsonName f.1 = false := by
  constructor
  · unfold drainIpcInput validTexts
    exact drainGo_msgs _ _ (jsonNames_nodup h)
  · exact drain_removes_json s

/-- C10, witness: a mailbox holding a well-formed message entry, an entry of
a different type and an entry with an empty text: only the first contributes,
all three are deleted. -/
theorem drain_characterization_witness :
    ((MailboxState.mk
        [("b.json", .valid "message" (some "hi")),
         ("a.json", .valid "status" (some "x")),
         ("c.json", .valid "message" (some ""))] false).files.map Prod.fst).Nodup ∧
      ((drainIpcInput (MailboxState.mk
          [("b.json", .valid "message" (some "hi")),
           ("a.json", .valid "status" (some "x")),
           ("c.json", .valid "message" (some ""))] false)).1
        = validTexts (MailboxState.mk
          [("b.json", .valid "message" (some "hi")),
           ("a.json", .valid "status" (some "x")),
           ("c.json", .valid "message" (some ""))] false) ∧
        ∀ f ∈ (drainIpcInput (MailboxState.mk
          [("b.json", .valid "message" (some "hi")),
           ("a.json", .valid "status" (some "x")),
           ("c.json", .valid "message" (some ""))] false)).2.files,
          isJsonName f.1 = false) :=
  ⟨by decide, drain_characterization _ (by decide)⟩

/-! ### Init-message lemmas -/

theorem countInits_append (a b : List AgentMessage) :
    countInits (a ++ b) = countInits a + countInits b := by
  unfold countInits
  exact List.countP_append _ _ _

theorem countInits_normalize (e : OCEvent) (sid : String)
    (h : isSessionCreated e = false) : countInits (normalizeEvent e sid) = 0 := by
  cases e with
  | sessionCreated a b => simp [isSessionCreated] at h
  | messageUpdated sid2 info =>
    simp only [normalizeEvent]
    by_cases hr : info.role = "assistant" ∧ info.completed = true
    · rw [if_pos hr]
      cases info.error with
      | some err => simp [countInits, isInitMsg, List.countP_cons]
      | none => simp [countInits, isInitMsg, List.countP_cons]
    · rw [if_neg hr]; rfl
  | messagePartUpdated sid2 delta part =>
    cases part with
    | text a b c => simp [normalizeEvent, countInits, isInitMsg, List.countP_cons]
    | tool a b st =>
      simp only [normalizeEvent]
      by_cases h1 : st.status = "pending" ∨ st.status = "running"
      · rw [if_pos h1]; simp [countInits, isInitMsg, List.countP_cons]
      · rw [if_neg h1]
        by_cases h2 : st.status = "completed"
        · rw [if_pos h2]; simp [countInits, isInitMsg, List.countP_cons]
        · rw [if_neg h2]
          by_cases h3 : st.status = "error"
          · rw [if_pos h3]; simp [countInits, isInitMsg, List.countP_cons]
          · rw [if_neg h3]; rfl
    | stepFinish => rfl
    | compaction => simp [normalizeEvent, countInits, isInitMsg, List.countP_cons]
  | sessionStatus a b => simp [normalizeEvent, countInits, isInitMsg, List.countP_cons]
  | sessionIdle a => rfl
  | sessionCompacted a => simp [normalizeEvent, countInits, isInitMsg, List.countP_cons]
  | sessionError a b => simp [normalizeEvent, countInits, isInitMsg, List.countP_cons]
  | permissionUpdated p => simp [normalizeEvent, countInits, isInitMsg, List.countP_cons]
  | ignored a => rfl

theorem countInits_processTurn (sid : String) (events : List OCEvent)
    (h : ∀ e ∈ events, isSessionCreated e = false) :
    countInits (processTurnEvents sid events) = 0 := by
  induction events with
  | nil => rfl
  | cons e es ih =>
    have he := h e (List.mem_cons_self e es)
    have hes : ∀ x ∈ es, isSessionCreated x = false :=
      fun x hx => h x (List.mem_cons_of_mem e hx)
    unfold processTurnEvents
    by_cases h1 : eventFilteredOut e sid = true
    · rw [if_pos h1]; exact ih hes
    · rw [if_neg h1]
      by_cases h2 : isIdleFor e sid = true
      · rw [if_pos h2]; exact countInits_normalize e sid he
      · rw [if_neg h2]
        rw [countInits_append, countInits_normalize e sid he, ih hes]

theorem countInits_runTurn (sid : String) (events : List OCEvent)
    (h : ∀ e ∈ events, isSessionCreated e = false) :
    countInits (runTurn sid events) = 0 := by
  unfold runTurn
  rw [countInits_append, countInits_processTurn sid events h]
  rfl

theorem countInits_turns (sid : String) (ts : List (List OCEvent))
    (h : ∀ turn ∈ ts, ∀ e ∈ turn, isSessionCreated e = false) :
    countInits ((ts.map (runTurn sid)).flatten) = 0 := by
  induction ts with
  | nil => rfl
  | cons t ts ih =>
    rw [List.map_cons, List.flatten_cons, countInits_append]
    rw [countInits_runTurn sid t (h t (List.mem_cons_self t ts))]
    rw [ih (fun turn hturn => h turn (List.mem_cons_of_mem t hturn))]

/-- C9 amended: the explicit `system`/`init` of `runMultiTurnQuery` is
emitted exactly once per session, on the first turn only — provided no
`session.created` event for the session is normalized during any turn (a
normalized `session.created` event would contribute an additional init
message, as the counterexample shows). -/
theorem multiTurn_single_init (sid : String) (t : List OCEvent)
    (ts : List (List OCEvent))
    (h : ∀ turn ∈ t :: ts, ∀ e ∈ turn, isSessionCreated e = false) :
    countInits (runMultiTurn sid (t :: ts)) = 1 := by
  unfold runMultiTurn
  rw [countInits_append, countInits_append]
  rw [countInits_runTurn sid t (h t (List.mem_cons_self t ts))]
  rw [countInits_turns sid ts (fun turn hturn => h turn (List.mem_cons_of_mem t hturn))]
  rfl

/-- C9 amended, witness: a single turn that only observes its idle event
yields exactly one init message. -/
theorem multiTurn_single_init_witness :
    (∀ turn ∈ [[OCEvent.sessionIdle "s"]], ∀ e ∈ turn, isSessionCreated e = false) ∧
      countInits (runMultiTurn "s" [[OCEvent.sessionIdle "s"]]) = 1 :=
  ⟨by decide, multiTurn_single_init "s" [OCEvent.sessionIdle "s"] [] (by decide)⟩

/-! ### Host controller lemmas -/

theorem runHost_anyOutput (cb : Bool) (events : List HostEvent) :
    ∀ init : HostState,
      (events.foldl (hostStep cb) init).anyOutput
        = (init.anyOutput || events.any isOutputEvent) := by
  induction events with
  | nil => intro init; simp
  | cons e es ih =>
    intro init
    rw [List.foldl_cons, List.any_cons, ih]
    cases e <;> simp [hostStep, isOutputEvent]

theorem runHost_timedOut (cb : Bool) (events : List HostEvent) :
    ∀ init : HostState,
      (events.foldl (hostStep cb) init).timedOut
        = (init.timedOut || hasTimeout events) := by
  induction events with
  | nil => intro init; simp [hasTimeout]
  | cons e es ih =>
    intro init
    rw [List.foldl_cons, ih]
    cases e <;> simp [hostStep, hasTimeout, List.any_cons, Bool.or_assoc]

theorem runHost_callbackCount (cb : Bool) (events : List HostEvent) :
    ∀ init : HostState,
      (events.foldl (hostStep cb) init).callbackCount
        = init.callbackCount + (if cb then numOutputs events else 0) := by
  induction events with
  | nil => intro init; simp [numOutputs]
  | cons e es ih =>
    intro init
    rw [List.foldl_cons, ih]
    cases e <;> cases cb <;>
      simp [hostStep, numOutputs, List.countP_cons, isOutputEvent] <;> omega

theorem runHost_lastSessionId (cb : Bool) (events : List HostEvent) :
    ∀ init : HostState,
      (events.foldl (hostStep cb) init).lastSessionId
        = events.foldl
            (fun acc e =>
              match e with
              | .outputDecoded o =>
                (match o.newSessionId with
                 | some s => some s
                 | none => acc)
              | _ => acc)
            init.lastSessionId := by
  induction events with
  | nil => intro init; rfl
  | cons e es ih =>
    intro init
    rw [List.foldl_cons, List.foldl_cons, ih]
    congr 1
    cases e with
    | outputDecoded o => cases o.newSessionId <;> rfl
    | timeoutFired => rfl

theorem runHost_lastResult (cb : Bool) (events : List HostEvent) :
    ∀ init : HostState,
      (events.foldl (hostStep cb) init).lastResult
        = events.foldl
            (fun acc e =>
              match e with
              | .outputDecoded o =>
                (match o.result with
                 | some r => some r
                 | none => acc)
              | _ => acc)
            init.lastResult := by
  induction events with
  | nil => intro init; rfl
  | cons e es ih =>
    intro init
    rw [List.foldl_cons, List.foldl_cons, ih]
    congr 1
    cases e with
    | outputDecoded o => cases o.result <;> rfl
    | timeoutFired => rfl

/-- C5 (modelled from the spec; `runContainerAgent` is not among the given
sources): on process exit, if at least one output record was decoded the
controller resolves with status success and the last known session id, and
for legacy callers without a streaming callback also the last known result;
if no output was ever decoded and the timeout fired it resolves — the model
is a total function, it never rejects — with a status error carrying the
timeout explanation, and the streaming result callback was never invoked. -/
theorem containerAgent_resolution (hasCallback : Bool) (events : List HostEvent) :
    (0 < numOutputs events →
        (resolveOnExit hasCallback (runHost hasCallback events)).status = "success" ∧
          (resolveOnExit hasCallback (runHost hasCallback events)).newSessionId
            = lastSessionIdIn events ∧
          (hasCallback = false →
            (resolveOnExit hasCallback (runHost hasCallback events)).result
              = lastResultIn events)) ∧
      (numOutputs events = 0 → hasTimeout events = true →
        (resolveOnExit hasCallback (runHost hasCallback events)).status = "error" ∧
          (resolveOnExit hasCallback (runHost hasCallback events)).error
            = some timeoutExplanation ∧
          (runHost hasCallback events).callbackCount = 0) := by
  have hany : (runHost hasCallback events).anyOutput = events.any isOutputEvent := by
    unfold runHost
    rw [runHost_anyOutput]
    rfl
  constructor
  · intro hpos
    have hex : ∃ a ∈ events, isOutputEvent a = true := by
      have := List.countP_pos_iff (p := isOutputEvent) (l := events)
      unfold numOutputs at hpos
      tauto
    have htrue : (runHost hasCallback events).anyOutput = true := by
      rw [hany, List.any_eq_true]
      exact hex
    refine ⟨?_, ?_, ?_⟩
    · simp [resolveOnExit, htrue]
    · simp only [resolveOnExit, htrue, if_pos]
      unfold runHost lastSessionIdIn
      rw [runHost_lastSessionId]
    · intro hcb
      subst hcb
      simp only [resolveOnExit, htrue, if_pos, Bool.false_eq_true, if_false]
      unfold runHost lastResultIn
      rw [runHost_lastResult]
  · intro hzero htime
    have hfalse : (runHost hasCallback events).anyOutput = false := by
      rw [hany, List.any_eq_false]
      intro a ha
      have := List.countP_eq_zero.mp hzero a ha
      simpa using this
    have htimed : (runHost hasCallback events).timedOut = true := by
      unfold runHost
      rw [runHost_timedOut]
      simp [htime]
    refine ⟨?_, ?_, ?_⟩
    · simp [resolveOnExit, hfalse, htimed]
    · simp [resolveOnExit, hfalse, htimed]
    · unfold runHost
      rw [runHost_callbackCount]
      simp [hzero]

/-- C5, witness: a run that decoded one success record resolves success with
its session id; a run with no output and a fired timeout resolves error with
the timeout explanation and an untouched callback. -/
theorem containerAgent_resolution_witness :
    ((resolveOnExit true (runHost true
        [HostEvent.outputDecoded
          ⟨"success", some "Here is my response", some "session-123"⟩])).status
        = "success" ∧
      (resolveOnExit true (runHost true
        [HostEvent.outputDecoded
          ⟨"success", some "Here is my response", some "session-123"⟩])).newSessionId
        = lastSessionIdIn
            [HostEvent.outputDecoded
              ⟨"success", some "Here is my response", some "session-123"⟩] ∧
      (true = false →
        (resolveOnExit true (runHost true
          [HostEvent.outputDecoded
            ⟨"success", some "Here is my response", some "session-123"⟩])).result
          = lastResultIn
              [HostEvent.outputDecoded
                ⟨"success", some "Here is my response", some "session-123"⟩])) ∧
      ((resolveOnExit true (runHost true [HostEvent.timeoutFired])).status = "error" ∧
        (resolveOnExit true (runHost true [HostEvent.timeoutFired])).error
          = some timeoutExplanation ∧
        (runHost true [HostEvent.timeoutFired]).callbackCount = 0) :=
  ⟨(containerAgent_resolution true
      [HostEvent.outputDecoded
        ⟨"success", some "Here is my response", some "session-123"⟩]).1 (by decide),
    (containerAgent_resolution true [HostEvent.timeoutFired]).2 (by decide) (by decide)⟩

/-- C6 (modelled from the spec; `runContainerAgent` is not among the given
sources): without a reset, a tick past the original deadline terminates the
subprocess; after an output record at time `t1` reset the deadline, a tick
past the original deadline terminates iff it also crosses the recomputed
deadline `t1 + window`. -/
theorem idle_reset_timeout (window start t1 t2 : Nat) (h1 : start + window < t2) :
    (ctrlRun window start [.tick t2]).killed = true ∧
      ((ctrlRun window start [.output t1, .tick t2]).killed = true
        ↔ t1 + window < t2) := by
  constructor
  · simp [ctrlRun, ctrlStep, h1]
  · by_cases h : t1 + window < t2 <;> simp [ctrlRun, ctrlStep, h]

/-- C6, witness (the timings of the regression test): the original deadline
is at 1830000; after an output at 1700010 the tick at 1850010 — past the
original deadline — does not terminate, because the recomputed deadline
3530010 is not yet crossed. -/
theorem idle_reset_timeout_witness :
    (ctrlRun 1830000 0 [.tick 1850010]).killed = true ∧
      ((ctrlRun 1830000 0 [.output 1700010, .tick 1850010]).killed = true
        ↔ 1700010 + 1830000 < 1850010) :=
  idle_reset_timeout 1830000 0 1700010 1850010 (by decide)

end NanoClaw
